import Mathlib

/-!
Verification of the client-side metadata cache in `src/kernel/inode.c`
(ceph kernel client).  The definitions below are a shallow embedding of the
C functions: machine integers become `Nat` (with explicit masking where the
C code masks), `struct timespec` becomes a pair of `Int`s, the per-inode
rb-tree of fragments becomes an association list keyed by decoded frag ids,
and each C function becomes a pure state-transforming Lean function.
Constants and helpers that live in headers absent from the tree
(`ceph_fs.h`, `super.h`) are modelled from the specification and are marked
as such in their doc comments.
-/

namespace CephClient

/-- Kernel `struct timespec`: seconds and nanoseconds. -/
structure Timespec where
  sec : Int
  nsec : Int
deriving DecidableEq, Repr

/-- Kernel `timespec_compare`: negative, zero or positive according to the
lexicographic comparison of `(sec, nsec)`. -/
def timespec_compare (l r : Timespec) : Int :=
  if l.sec < r.sec then -1
  else if l.sec > r.sec then 1
  else l.nsec - r.nsec

/-- Modelled from the spec: the capability bit constants (`CEPH_CAP_*`) are
defined in `ceph_fs.h`, which is not part of this tree.  The spec lists the
cap kinds (PIN, RD, RDCACHE, WR, WRBUFFER, EXCL); each is a distinct flag
bit of the issued-caps word. -/
def CEPH_CAP_PIN : Nat := 1

/-- Modelled from the spec: see `CEPH_CAP_PIN`. -/
def CEPH_CAP_RDCACHE : Nat := 2

/-- Modelled from the spec: see `CEPH_CAP_PIN`. -/
def CEPH_CAP_RD : Nat := 4

/-- Modelled from the spec: see `CEPH_CAP_PIN`. -/
def CEPH_CAP_WR : Nat := 8

/-- Modelled from the spec: see `CEPH_CAP_PIN`. -/
def CEPH_CAP_WRBUFFER : Nat := 16

/-- Modelled from the spec: see `CEPH_CAP_PIN`. -/
def CEPH_CAP_EXCL : Nat := 32

/-- Modelled from the spec: the lock-mask constants (`CEPH_LOCK_*`) are
defined in `ceph_fs.h`, absent from the tree.  Each lock kind is a bit;
`CEPH_LOCK_ICONTENT` (the directory/file content lease) spans several bits,
which is why the code's "any ICONTENT bit implies all ICONTENT bits"
folding step is not a no-op. -/
def CEPH_LOCK_DN : Nat := 1

/-- Modelled from the spec: see `CEPH_LOCK_DN`. -/
def CEPH_LOCK_IAUTH : Nat := 2

/-- Modelled from the spec: see `CEPH_LOCK_DN`. -/
def CEPH_LOCK_ILINK : Nat := 4

/-- Modelled from the spec: see `CEPH_LOCK_DN`. -/
def CEPH_LOCK_IDFT : Nat := 8

/-- Modelled from the spec: see `CEPH_LOCK_DN`. -/
def CEPH_LOCK_IFILE : Nat := 16

/-- Modelled from the spec: see `CEPH_LOCK_DN`. -/
def CEPH_LOCK_IDIR : Nat := 32

/-- Modelled from the spec: see `CEPH_LOCK_DN`. -/
def CEPH_LOCK_IXATTR : Nat := 64

/-- Modelled from the spec: the content lease covers file and directory
content bits; see `CEPH_LOCK_DN`. -/
def CEPH_LOCK_ICONTENT : Nat := CEPH_LOCK_IFILE ||| CEPH_LOCK_IDIR

/-- POSIX file-type mask (standard kernel constant, octal 0170000). -/
def S_IFMT : Nat := 0xF000

/-- POSIX regular-file type bits. -/
def S_IFREG : Nat := 0x8000

/-- POSIX directory type bits. -/
def S_IFDIR : Nat := 0x4000

/-- POSIX symlink type bits. -/
def S_IFLNK : Nat := 0xA000

/-- POSIX fifo type bits. -/
def S_IFIFO : Nat := 0x1000

/-- POSIX block-device type bits. -/
def S_IFBLK : Nat := 0x6000

/-- POSIX character-device type bits. -/
def S_IFCHR : Nat := 0x2000

/-- POSIX socket type bits. -/
def S_IFSOCK : Nat := 0xC000

/-- Modelled from the spec: bound on the replica-distribution list of a
dirfrag (`dist[≤MAX_DIRFRAG_REP]`); the constant lives in `super.h`, absent
from the tree.  Its historical value is a small positive number. -/
def MAX_DIRFRAG_REP : Nat := 4

/-- Modelled from the spec: the frag helpers (`frag_make`, `frag_bits`,
`frag_value`, `frag_contains_value`) live in `ceph_fs.h`, absent from the
tree.  Per the spec a FragId is a `(bits, value)` pair where `bits` says
how many prefix bits of the hash value are meaningful.  We store the
meaningful prefix in the low bit positions of `value`: this is the reading
under which the in-tree child construction of `ceph_choose_frag`
(`frag_make(frag_bits(t) + split_by, frag_value(t) | (i << frag_bits(t)))`)
extends a frag with the next `split_by` hash bits, and under which its
`BUG_ON` (a containing child always exists) is justified. -/
structure Frag where
  bits : Nat
  value : Nat
deriving DecidableEq, Repr

/-- Modelled from the spec: build a frag from a bit count and a value,
keeping only the meaningful low `b` bits of `v`. -/
def frag_make (b v : Nat) : Frag := ⟨b, v % 2 ^ b⟩

/-- Modelled from the spec: number of meaningful prefix bits. -/
def frag_bits (f : Frag) : Nat := f.bits

/-- Modelled from the spec: the meaningful prefix bits themselves. -/
def frag_value (f : Frag) : Nat := f.value

/-- Modelled from the spec: a frag contains a hash value iff the frag's
prefix bits agree with the value's first `bits` bits. -/
def frag_contains_value (f : Frag) (v : Nat) : Prop := v % 2 ^ f.bits = f.value

instance (f : Frag) (v : Nat) : Decidable (frag_contains_value f v) := by
  unfold frag_contains_value; infer_instance

/-- One node of the per-inode fragment tree (`struct ceph_inode_frag`,
minus the intrusive rb-tree links). -/
structure FragNode where
  split_by : Nat
  mds : Int
  ndist : Nat
  dist : List Nat
deriving DecidableEq, Repr

/-- The per-inode fragment tree.  The C code keeps an rb-tree keyed by the
encoded frag and only ever searches it by exact key, so an association
list is a faithful model. -/
abbrev FragTree := List (Frag × FragNode)

/-- Exact-key lookup (`__ceph_find_frag`). -/
def __ceph_find_frag (tree : FragTree) (f : Frag) : Option FragNode :=
  (tree.find? (fun p => p.1 == f)).map (·.2)

/-- Fresh node as initialized by `__get_or_create_frag` before the caller
fills it in: no split, no authority, no replicas. -/
def newFragNode : FragNode := ⟨0, -1, 0, []⟩

/-- Idempotent insertion (`__get_or_create_frag`); allocation failure is
not modelled (the model always has memory). -/
def __get_or_create_frag (tree : FragTree) (f : Frag) : FragTree :=
  if (__ceph_find_frag tree f).isSome then tree else tree ++ [(f, newFragNode)]

/-- Update every entry with the given key in place (the rb-tree node found
by key is mutated through its pointer in C). -/
def setFragMap (tree : FragTree) (f : Frag) (g : FragNode → FragNode) : FragTree :=
  tree.map (fun p => if p.1 == f then (f, g p.2) else p)

/-- Remove the entry with the given key (`rb_erase` + `kfree`). -/
def eraseFrag (tree : FragTree) (f : Frag) : FragTree :=
  tree.filter (fun p => p.1 != f)

/-- Decoded `struct ceph_mds_reply_dirfrag`. -/
structure DirfragInfo where
  frag : Frag
  auth : Int
  ndist : Nat
  dist : List Nat
deriving DecidableEq, Repr

/-- Embedding of `ceph_fill_dirfrag`: delegation info from the MDS is
stored in the tree only when it is present (`auth >= 0 || ndist > 0`);
otherwise a bare leaf is erased and a branch is kept with its referral
cleared.  The ENOMEM path is not modelled. -/
def ceph_fill_dirfrag (tree : FragTree) (di : DirfragInfo) : FragTree :=
  if di.auth < 0 ∧ di.ndist = 0 then
    match __ceph_find_frag tree di.frag with
    | none => tree
    | some fr =>
      if fr.split_by = 0 then eraseFrag tree di.frag
      else setFragMap tree di.frag (fun _ => { fr with mds := -1, ndist := 0 })
  else
    setFragMap (__get_or_create_frag tree di.frag) di.frag
      (fun fr => { fr with mds := di.auth,
                           ndist := min di.ndist MAX_DIRFRAG_REP,
                           dist := di.dist.take (min di.ndist MAX_DIRFRAG_REP) })

/-- Merge the fragtree splits of an MDS inode reply into the tree (the
`for (i = 0; i < nsplits; i++)` loop of `ceph_fill_inode`): each reported
frag is created if absent and its `split_by` overwritten. -/
def mergeSplits (tree : FragTree) (splits : List (Frag × Nat)) : FragTree :=
  splits.foldl
    (fun t s => setFragMap (__get_or_create_frag t s.1) s.1
      (fun fr => { fr with split_by := s.2 })) tree

/-- Candidate child of frag `t` for suffix index `i` under a `split_by` of
`sb`, exactly as built in the loop body of `ceph_choose_frag`. -/
def frag_child (t : Frag) (sb i : Nat) : Frag :=
  frag_make (frag_bits t + sb) (frag_value t ||| (i <<< frag_bits t))

/-- The `for (i = 0; i < nway; i++)` child search of `ceph_choose_frag`:
the first of the `1 << sb` candidate children that contains `v`, or `none`
(the `BUG_ON(i == nway)` case). -/
def chooseChild (t : Frag) (sb v : Nat) : Option Frag :=
  ((List.range (1 <<< sb)).find?
      (fun i => decide (frag_contains_value (frag_child t sb i) v))).map
    (frag_child t sb)

/-- The descent loop of `ceph_choose_frag`, fuelled.  `none` represents
either fuel exhaustion or the `BUG_ON` halt; the theorems below show that
with fuel `tree.length + 1` neither occurs. -/
def ceph_choose_frag_go (tree : FragTree) (v : Nat) : Nat → Frag → Option Frag
  | 0, _ => none
  | fuel + 1, t =>
    match __ceph_find_frag tree t with
    | none => some t
    | some frag =>
      if frag.split_by = 0 then some t
      else
        match chooseChild t frag.split_by v with
        | none => none
        | some n => ceph_choose_frag_go tree v fuel n

/-- Embedding of `ceph_choose_frag`: descend from the root frag following
splits until a leaf (absent or unsplit) frag containing `v` is reached.
The `pfrag`/`found` out-parameters (copying delegation info of a found
leaf) do not affect the returned frag and are not modelled. -/
def ceph_choose_frag (tree : FragTree) (v : Nat) : Option Frag :=
  ceph_choose_frag_go tree v (tree.length + 1) (frag_make 0 0)

/-- The cached inode state touched by the functions under study: the
relevant fields of `struct inode` and `struct ceph_inode_info` merged into
one record (in C they sit in one allocation anyway). -/
structure CInode where
  i_version : Nat
  vfs_version : Nat
  i_mode : Nat
  i_uid : Nat
  i_gid : Nat
  i_nlink : Nat
  i_rdev : Nat
  i_size : Nat
  i_blocks : Nat
  i_reported_size : Nat
  i_truncate_seq : Nat
  i_time_warp_seq : Nat
  i_max_size : Nat
  i_layout : Nat
  i_ctime : Timespec
  i_mtime : Timespec
  i_atime : Timespec
  i_old_atime : Timespec
  i_rctime : Timespec
  i_xattr_data : List Nat
  i_symlink : Option (List Nat)
  i_fragtree : FragTree
  i_files : Nat
  i_subdirs : Nat
  i_rbytes : Nat
  i_rfiles : Nat
  i_rsubdirs : Nat
  i_lease_session : Option Nat
  i_lease_gen : Nat
  i_lease_ttl : Nat
  i_lease_mask : Nat
deriving DecidableEq, Repr

/-- The slice of `struct ceph_mds_session` the inode paths read: the cap
generation and cap TTL (under `s_cap_lock` in C). -/
structure Session where
  cap_gen : Nat
  cap_ttl : Nat
deriving DecidableEq, Repr

/-- Kernel `time_before(a, b)`: is time `a` strictly before `b`.  The
jiffies wrap-around arithmetic of the macro is modelled as plain order on
unbounded counters, matching the spec's `jiffies < ttl` reading. -/
def time_before (a b : Nat) : Prop := a < b

instance (a b : Nat) : Decidable (time_before a b) := by
  unfold time_before; infer_instance

/-- First half of `ceph_fill_file_bits`: the size/truncate_seq
reconciliation.  The reported size is accepted exactly when the reported
`truncate_seq` is newer, or equally new with a larger size. -/
def fillFileBitsSize (st : CInode) (truncate_seq size : Nat) : CInode :=
  if truncate_seq > st.i_truncate_seq ∨
      (truncate_seq = st.i_truncate_seq ∧ size > st.i_size) then
    { st with i_size := size,
              i_blocks := (size + (1 <<< 9) - 1) >>> 9,
              i_reported_size := size,
              i_truncate_seq := truncate_seq }
  else st

/-- Second half of `ceph_fill_file_bits`: the timestamp policy keyed on
the caps currently issued.  With EXCL only a newer ctime is taken; with
WR/WRBUFFER the MDS triple is taken wholesale on a `time_warp_seq` bump
and field-wise-if-newer on a tie; with no write caps the MDS is
authoritative whenever its `time_warp_seq` is not older.  The warning
paths change no state. -/
def fillFileBitsTime (st : CInode) (issued time_warp_seq : Nat)
    (ctime mtime atime : Timespec) : CInode :=
  if issued &&& CEPH_CAP_EXCL ≠ 0 then
    if timespec_compare ctime st.i_ctime > 0 then { st with i_ctime := ctime } else st
  else if issued &&& (CEPH_CAP_WR ||| CEPH_CAP_WRBUFFER) ≠ 0 then
    if time_warp_seq > st.i_time_warp_seq then
      { st with i_ctime := ctime, i_mtime := mtime, i_atime := atime,
                i_time_warp_seq := time_warp_seq }
    else if time_warp_seq = st.i_time_warp_seq then
      let st1 := if timespec_compare ctime st.i_ctime > 0 then { st with i_ctime := ctime } else st
      let st2 := if timespec_compare mtime st1.i_mtime > 0 then { st1 with i_mtime := mtime } else st1
      if timespec_compare atime st2.i_atime > 0 then { st2 with i_atime := atime } else st2
    else st
  else
    if time_warp_seq ≥ st.i_time_warp_seq then
      { st with i_ctime := ctime, i_mtime := mtime, i_atime := atime,
                i_time_warp_seq := time_warp_seq }
    else st

/-- Embedding of `ceph_fill_file_bits`: the size phase followed by the
timestamp phase, exactly as the C function runs them in sequence. -/
def ceph_fill_file_bits (st : CInode) (issued truncate_seq size time_warp_seq : Nat)
    (ctime mtime atime : Timespec) : CInode :=
  fillFileBitsTime (fillFileBitsSize st truncate_seq size) issued time_warp_seq
    ctime mtime atime

/-- Embedding of `ceph_inode_lease_valid`.  The `sess` argument is the
session that `i_lease_session` points to (`none` for a null pointer). -/
def ceph_inode_lease_valid (st : CInode) (sess : Option Session)
    (caps_issued jiffies mask : Nat) : Bool :=
  let havemask := st.i_lease_mask
  let havemask :=
    if mask &&& CEPH_LOCK_ICONTENT ≠ 0 ∧ caps_issued &&& CEPH_CAP_EXCL ≠ 0 then
      havemask ||| CEPH_LOCK_ICONTENT
    else havemask
  let havemask :=
    if havemask &&& CEPH_LOCK_ICONTENT ≠ 0 then havemask ||| CEPH_LOCK_ICONTENT
    else havemask
  let valid : Bool :=
    match sess with
    | none => false
    | some s =>
      decide (s.cap_gen = st.i_lease_gen ∧ time_before jiffies s.cap_ttl ∧
              time_before jiffies st.i_lease_ttl)
  valid && (havemask &&& mask == mask)

/-- Move an element to the tail of a list (`list_move_tail` of the lease
item on the session's `s_inode_leases` list). -/
def moveTail (x : Nat) (l : List Nat) : List Nat :=
  (l.filter (fun y => y != x)) ++ [x]

/-- Result of `update_inode_lease`: the new inode state, the session's
inode-lease list, the returned effective mask, and whether an inode
reference was taken (`igrab`, on first attach). -/
structure LeaseUpdateResult where
  ci : CInode
  leases : List Nat
  retMask : Nat
  grabbed : Bool
deriving DecidableEq, Repr

/-- Embedding of `update_inode_lease`.  `ino` stands for this inode on the
session list, `sessId` for the session pointer identity, `s_cap_gen` for
the session's current generation.  The TTL is computed from the request
start time and the lease duration; the lease is accepted iff there is no
newer same-generation TTL and no lease from a different session. -/
def update_inode_lease (st : CInode) (slist : List Nat) (ino sessId s_cap_gen : Nat)
    (mask duration_ms hz from_time : Nat) : LeaseUpdateResult :=
  let ttl := from_time + duration_ms * hz / 1000
  if mask = 0 then ⟨st, slist, 0, false⟩
  else if (st.i_lease_ttl = 0 ∨ ¬ time_before ttl st.i_lease_ttl ∨
            st.i_lease_gen ≠ s_cap_gen) ∧
          (st.i_lease_session = none ∨ st.i_lease_session = some sessId) then
    let is_new := st.i_lease_session = none
    ⟨{ st with i_lease_ttl := ttl, i_lease_gen := s_cap_gen, i_lease_mask := mask,
               i_lease_session := some sessId },
     moveTail ino slist, mask, decide is_new⟩
  else ⟨st, slist, 0, false⟩

/-- How a setattr sub-operation resolved: applied locally under caps, a
lease-backed no-op, or forwarded to the MDS (which leaves the local state
untouched until the reply is assimilated). -/
inductive SetattrAction where
  | localOp
  | noop
  | mds
deriving DecidableEq, Repr

/-- Embedding of `ceph_setattr_time`.  `valid_atime`/`valid_mtime` are the
`ATTR_ATIME`/`ATTR_MTIME` bits of `ia_valid`; `now` is `CURRENT_TIME`.
Under EXCL the change is applied locally with a `time_warp_seq` bump;
under WR a strict increase of both requested times is applied locally;
with a valid content lease and no actual change it is a no-op; otherwise
an MDS request is issued. -/
def ceph_setattr_time (st : CInode) (sess : Option Session) (caps jiffies : Nat)
    (valid_atime valid_mtime : Bool) (ia_atime ia_mtime now : Timespec) :
    CInode × SetattrAction :=
  if caps &&& CEPH_CAP_EXCL ≠ 0 then
    let st1 := { st with i_time_warp_seq := st.i_time_warp_seq + 1 }
    let st2 := if valid_atime then { st1 with i_atime := ia_atime } else st1
    let st3 := if valid_mtime then { st2 with i_mtime := ia_mtime } else st2
    ({ st3 with i_ctime := now }, .localOp)
  else if caps &&& CEPH_CAP_WR ≠ 0 ∧
          (valid_mtime = false ∨ timespec_compare st.i_mtime ia_mtime < 0) ∧
          (valid_atime = false ∨ timespec_compare st.i_atime ia_atime < 0) then
    let st1 := if valid_atime then { st with i_atime := ia_atime } else st
    let st2 := if valid_mtime then { st1 with i_mtime := ia_mtime } else st1
    ({ st2 with i_ctime := now }, .localOp)
  else if ceph_inode_lease_valid st sess caps jiffies CEPH_LOCK_ICONTENT ∧
          ¬ ((valid_atime = true ∧ st.i_atime ≠ ia_atime) ∨
             (valid_mtime = true ∧ st.i_mtime ≠ ia_mtime)) then
    (st, .noop)
  else (st, .mds)

/-- Embedding of `ceph_setattr_size`.  Under EXCL a forward truncate
(grow) is applied locally — note the C code updates `i_size`,
`i_ctime` and `i_reported_size` but not `i_blocks` here; with a valid
content lease and an unchanged size it is a no-op; otherwise the truncate
goes to the MDS. -/
def ceph_setattr_size (st : CInode) (sess : Option Session) (caps jiffies : Nat)
    (ia_size : Nat) (ia_ctime : Timespec) : CInode × SetattrAction :=
  if caps &&& CEPH_CAP_EXCL ≠ 0 ∧ ia_size > st.i_size then
    ({ st with i_size := ia_size, i_ctime := ia_ctime, i_reported_size := ia_size },
     .localOp)
  else if ceph_inode_lease_valid st sess caps jiffies CEPH_LOCK_ICONTENT ∧
          ia_size = st.i_size then
    (st, .noop)
  else (st, .mds)

/-- Embedding of `ceph_inode_set_size`: record the new size with blocks
recomputed, and report whether a cap check is scheduled (the max_size
hint). -/
def ceph_inode_set_size (st : CInode) (size : Nat) : CInode × Bool :=
  let st1 := { st with i_size := size, i_blocks := (size + (1 <<< 9) - 1) >>> 9 }
  (st1, decide (st1.i_max_size ≤ size <<< 1 ∧ st1.i_reported_size <<< 1 < st1.i_max_size))

/-- Decoded `struct ceph_mds_reply_info_in` / `struct ceph_mds_reply_inode`
as consumed by `ceph_fill_inode` (wire integers already byte-swapped; the
xattr blob and symlink target as byte lists). -/
structure MdsInodeInfo where
  version : Nat
  mode : Nat
  uid : Nat
  gid : Nat
  nlink : Nat
  rdev : Nat
  truncate_seq : Nat
  size : Nat
  time_warp_seq : Nat
  max_size : Nat
  layout : Nat
  ctime : Timespec
  mtime : Timespec
  atime : Timespec
  rctime : Timespec
  files : Nat
  subdirs : Nat
  rbytes : Nat
  rfiles : Nat
  rsubdirs : Nat
  fragtree_splits : List (Frag × Nat)
  symlink : List Nat
  xattr : List Nat
deriving DecidableEq, Repr

/-- The attribute-update block of `ceph_fill_inode` (the stretch between
the version check and the `no_change` label): identity attributes, the
reconciler, `max_size`/`layout`, the xattr blob (whose content is copied
whenever a nonzero-length blob is supplied), and `old_atime`. -/
def fillInodeAttrUpdate (st : CInode) (info : MdsInodeInfo) (issued : Nat) : CInode :=
  let a := { st with i_version := info.version, vfs_version := st.vfs_version + 1,
                     i_mode := info.mode, i_uid := info.uid, i_gid := info.gid,
                     i_nlink := info.nlink, i_rdev := info.rdev }
  let b := ceph_fill_file_bits a issued info.truncate_seq info.size
             info.time_warp_seq info.ctime info.mtime info.atime
  let c := { b with i_max_size := info.max_size, i_layout := info.layout }
  let d := if info.xattr.length ≠ 0 then { c with i_xattr_data := info.xattr } else c
  { d with i_old_atime := d.i_atime }

/-- The trailing type dispatch of `ceph_fill_inode` (`switch (inode->i_mode
& S_IFMT)`): special files and regular files just install operation
tables, a symlink records its target once, a directory caches the
recursive stats (and, under the RBYTES mount flag, mirrors `rbytes` into
the size); anything else is `-EINVAL`. -/
def fillInodeTypeDispatch (st3 : CInode) (info : MdsInodeInfo) (rbytesFlag : Bool) :
    CInode × Int :=
  let ft := st3.i_mode &&& S_IFMT
  if ft = S_IFIFO ∨ ft = S_IFBLK ∨ ft = S_IFCHR ∨ ft = S_IFSOCK then (st3, 0)
  else if ft = S_IFREG then (st3, 0)
  else if ft = S_IFLNK then
    match st3.i_symlink with
    | some _ => (st3, 0)
    | none => ({ st3 with i_symlink := some info.symlink }, 0)
  else if ft = S_IFDIR then
    let d := { st3 with i_files := info.files, i_subdirs := info.subdirs,
                        i_rbytes := info.rbytes, i_rfiles := info.rfiles,
                        i_rsubdirs := info.rsubdirs, i_rctime := info.rctime }
    (if rbytesFlag then { d with i_size := d.i_rbytes } else d, 0)
  else (st3, -22)

/-- Embedding of `ceph_fill_inode`.  `issued` is `__ceph_caps_issued`;
`rbytesFlag` is the `CEPH_MOUNT_RBYTES` mount flag.  Returns the new state
and the C return value (0 or `-EINVAL` for a bad mode).  When the reported
version is nonzero and matches the cached one the attribute block is
skipped, but the fragtree splits, the optional dirfrag and the
type-dispatch tail still run.  ENOMEM paths and the operation-table /
blkbits assignments are not modelled. -/
def ceph_fill_inode (st : CInode) (info : MdsInodeInfo) (dirinfo : Option DirfragInfo)
    (issued : Nat) (rbytesFlag : Bool) : CInode × Int :=
  let st1 :=
    if info.version > 0 ∧ st.i_version = info.version then st
    else fillInodeAttrUpdate st info issued
  let st2 := { st1 with i_fragtree := mergeSplits st1.i_fragtree info.fragtree_splits }
  let st3 :=
    match dirinfo with
    | none => st2
    | some di => { st2 with i_fragtree := ceph_fill_dirfrag st2.i_fragtree di }
  fillInodeTypeDispatch st3 info rbytesFlag

/-- Little-endian 32-bit decode of the first four bytes of a blob
(`ceph_decode_32_safe`): fails when fewer than four bytes remain. -/
def decode32 : List Nat → Option (Nat × List Nat)
  | b0 :: b1 :: b2 :: b3 :: rest =>
    some (b0 + b1 * 256 + b2 * 65536 + b3 * 16777216, rest)
  | _ => none

/-- Little-endian 32-bit encode, used to build well-formed xattr blobs. -/
def toLE32 (n : Nat) : List Nat :=
  [n % 256, n / 256 % 256, n / 65536 % 256, n / 16777216 % 256]

/-- Outcome of a `ceph_getxattr` call: `enodata` (`-ENODATA`, name
absent), `erange` (`-ERANGE`, buffer too small), `eio` (`-EIO`, blob
malformed), `retLen n` (returned length `n` with nothing copied — the
`size == 0` probe, and the virtual-xattr path whose copy is size-capped),
or `retCopy n val` (returned length `n` with the value bytes copied). -/
inductive XattrRes where
  | enodata
  | erange
  | eio
  | retLen (n : Nat)
  | retCopy (n : Nat) (val : List Nat)
deriving DecidableEq, Repr

/-- The name-scanning loop of `ceph_getxattr` over the decoded entry
count: decode a name length, compare the name, decode a value length, and
on a match apply the buffer-size contract.  Skipping past a recorded
length that overruns the blob silently clamps (C advances the pointer past
`end` and the loop just runs out), exactly like the unchecked `p += len`
in the source. -/
def xattrScan (name : List Nat) (size : Nat) : Nat → List Nat → XattrRes
  | 0, _ => .enodata
  | numattr + 1, p =>
    match decode32 p with
    | none => .eio
    | some (nlen, p1) =>
      let matched := nlen == name.length && p1.take nlen == name
      let p2 := p1.drop nlen
      match decode32 p2 with
      | none => .eio
      | some (vlen, p3) =>
        if matched then
          if size ≠ 0 ∧ size < vlen then .erange
          else if size = 0 then .retLen vlen
          else .retCopy vlen (p3.take vlen)
        else xattrScan name size numattr (p3.drop vlen)

/-- The cached-blob branch of `ceph_getxattr` (after the virtual-xattr
dispatch and the `ceph_do_getattr` refresh): an empty blob is `-ENODATA`,
otherwise decode the count and scan. -/
def ceph_getxattr_blob (blob name : List Nat) (size : Nat) : XattrRes :=
  if blob.length = 0 then .enodata
  else
    match decode32 blob with
    | none => .eio
    | some (numattr, p) => xattrScan name size numattr p

/-- One xattr entry on the wire: `(nlen, name, vlen, value)`. -/
def encodeXattrEntry (e : List Nat × List Nat) : List Nat :=
  toLE32 e.1.length ++ e.1 ++ toLE32 e.2.length ++ e.2

/-- Concatenated encoded entries of an xattr list. -/
def encodeXattrBody : List (List Nat × List Nat) → List Nat
  | [] => []
  | e :: rest => encodeXattrEntry e ++ encodeXattrBody rest

/-- The MDS xattr blob encoding: a 32-bit count followed by the
`(nlen, name, vlen, value)` entries. -/
def encodeXattrs (xs : List (List Nat × List Nat)) : List Nat :=
  toLE32 xs.length ++ encodeXattrBody xs

/-- A blob is well formed when it is the encoding of some entry list whose
lengths and count fit in 32 bits. -/
def WellFormedBlob (blob : List Nat) : Prop :=
  ∃ xs : List (List Nat × List Nat),
    xs.length < 2 ^ 32 ∧
    (∀ e ∈ xs, e.1.length < 2 ^ 32 ∧ e.2.length < 2 ^ 32) ∧
    blob = encodeXattrs xs

/-- Virtual xattr `user.ceph.dir.entries` (`_ceph_vir_xattrcb_entries`):
files plus subdirs, decimal-formatted. -/
def _ceph_vir_xattrcb_entries (ci : CInode) : String :=
  toString (ci.i_files + ci.i_subdirs)

/-- Virtual xattr `user.ceph.dir.files`. -/
def _ceph_vir_xattrcb_files (ci : CInode) : String := toString ci.i_files

/-- Virtual xattr `user.ceph.dir.subdirs`. -/
def _ceph_vir_xattrcb_subdirs (ci : CInode) : String := toString ci.i_subdirs

/-- Virtual xattr `user.ceph.dir.rentries`. -/
def _ceph_vir_xattrcb_rentries (ci : CInode) : String :=
  toString (ci.i_rfiles + ci.i_rsubdirs)

/-- Virtual xattr `user.ceph.dir.rfiles`. -/
def _ceph_vir_xattrcb_rfiles (ci : CInode) : String := toString ci.i_rfiles

/-- Virtual xattr `user.ceph.dir.rsubdirs`.  The source formats
`ci->i_subdirs` here (not `i_rsubdirs`); the embedding is faithful to the
source. -/
def _ceph_vir_xattrcb_rsubdirs (ci : CInode) : String := toString ci.i_subdirs

/-- Virtual xattr `user.ceph.dir.rbytes`. -/
def _ceph_vir_xattrcb_rbytes (ci : CInode) : String := toString ci.i_rbytes

/-- Virtual xattr `user.ceph.dir.rctime`, formatted `sec.nsec`. -/
def _ceph_vir_xattrcb_rctime (ci : CInode) : String :=
  toString ci.i_rctime.sec ++ "." ++ toString ci.i_rctime.nsec

/-- The closed virtual-xattr table (`_ceph_vir_xattr_recs`), in the
declared order. -/
def _ceph_vir_xattr_recs : List (String × (CInode → String)) :=
  [("user.ceph.dir.entries", _ceph_vir_xattrcb_entries),
   ("user.ceph.dir.files", _ceph_vir_xattrcb_files),
   ("user.ceph.dir.subdirs", _ceph_vir_xattrcb_subdirs),
   ("user.ceph.dir.rentries", _ceph_vir_xattrcb_rentries),
   ("user.ceph.dir.rfiles", _ceph_vir_xattrcb_rfiles),
   ("user.ceph.dir.rsubdirs", _ceph_vir_xattrcb_rsubdirs),
   ("user.ceph.dir.rbytes", _ceph_vir_xattrcb_rbytes),
   ("user.ceph.dir.rctime", _ceph_vir_xattrcb_rctime)]

/-- Linear match of a name against the virtual-xattr table
(`_ceph_match_vir_xattr`). -/
def _ceph_match_vir_xattr (name : String) : Option (CInode → String) :=
  (_ceph_vir_xattr_recs.find? (fun r => r.1 == name)).map (·.2)

/-- Bytes of a name string as passed to the blob scan. -/
def strBytes (s : String) : List Nat := s.toList.map Char.toNat

/-- Embedding of `ceph_getxattr`: a virtual-xattr name is answered
immediately from cached directory stats — `snprintf` returns the
would-be formatted length whatever the buffer size, so the result is
`retLen` of that length and no error; any other name goes through the
cached blob (the `ceph_do_getattr` refresh is the identity here as the
blob is already cached).  The second component records whether the
blob/MDS path was consulted at all. -/
def ceph_getxattr (ci : CInode) (name : String) (size : Nat) : XattrRes × Bool :=
  match _ceph_match_vir_xattr name with
  | some cb => (.retLen (cb ci).length, false)
  | none => (ceph_getxattr_blob ci.i_xattr_data (strBytes name) size, true)

/-- An all-zero inode record, used as the base of concrete test states. -/
def inode0 : CInode :=
  { i_version := 0, vfs_version := 0, i_mode := 0, i_uid := 0, i_gid := 0,
    i_nlink := 0, i_rdev := 0, i_size := 0, i_blocks := 0, i_reported_size := 0,
    i_truncate_seq := 0, i_time_warp_seq := 0, i_max_size := 0, i_layout := 0,
    i_ctime := ⟨0, 0⟩, i_mtime := ⟨0, 0⟩, i_atime := ⟨0, 0⟩, i_old_atime := ⟨0, 0⟩,
    i_rctime := ⟨0, 0⟩, i_xattr_data := [], i_symlink := none, i_fragtree := [],
    i_files := 0, i_subdirs := 0, i_rbytes := 0, i_rfiles := 0, i_rsubdirs := 0,
    i_lease_session := none, i_lease_gen := 0, i_lease_ttl := 0, i_lease_mask := 0 }

lemma blocks_formula (n : Nat) : (n + (1 <<< 9) - 1) >>> 9 = (n + 511) / 512 := by
  rw [Nat.shiftRight_eq_div_pow, Nat.shiftLeft_eq]
  have h : n + 1 * 2 ^ 9 - 1 = n + 511 := by norm_num
  rw [h]

lemma fillFileBitsTime_size_frame (st : CInode) (issued tw : Nat)
    (ct mt at_ : Timespec) :
    (fillFileBitsTime st issued tw ct mt at_).i_size = st.i_size ∧
    (fillFileBitsTime st issued tw ct mt at_).i_blocks = st.i_blocks ∧
    (fillFileBitsTime st issued tw ct mt at_).i_reported_size = st.i_reported_size ∧
    (fillFileBitsTime st issued tw ct mt at_).i_truncate_seq = st.i_truncate_seq := by
  unfold fillFileBitsTime
  dsimp only
  split_ifs <;> exact ⟨rfl, rfl, rfl, rfl⟩

lemma fillFileBitsTime_tw_mono (st : CInode) (issued tw : Nat)
    (ct mt at_ : Timespec) :
    st.i_time_warp_seq ≤ (fillFileBitsTime st issued tw ct mt at_).i_time_warp_seq := by
  unfold fillFileBitsTime
  dsimp only
  split_ifs <;> (try dsimp only) <;> omega

lemma fillFileBitsSize_tseq_mono (st : CInode) (ts sz : Nat) :
    st.i_truncate_seq ≤ (fillFileBitsSize st ts sz).i_truncate_seq := by
  unfold fillFileBitsSize
  split
  · rename_i h
    rcases h with h | ⟨h1, _⟩
    · exact Nat.le_of_lt h
    · exact Nat.le_of_eq h1.symm
  · exact Nat.le.refl

lemma fillFileBitsSize_tw_frame (st : CInode) (ts sz : Nat) :
    (fillFileBitsSize st ts sz).i_time_warp_seq = st.i_time_warp_seq := by
  unfold fillFileBitsSize
  split <;> rfl

/-- C1: the attribute reconciler replaces the local size (with blocks
recomputed, `truncate_seq` set and `reported_size` recorded) exactly when
the reported `truncate_seq` is newer, or equally new with a strictly
larger size; otherwise those four fields are untouched, whatever caps are
held and whatever the timestamp inputs are. -/
theorem fill_file_bits_size_policy (st : CInode) (issued ts sz tw : Nat)
    (ct mt at_ : Timespec) :
    ((ts > st.i_truncate_seq ∨ (ts = st.i_truncate_seq ∧ sz > st.i_size)) →
      (ceph_fill_file_bits st issued ts sz tw ct mt at_).i_size = sz ∧
      (ceph_fill_file_bits st issued ts sz tw ct mt at_).i_blocks = (sz + 511) / 512 ∧
      (ceph_fill_file_bits st issued ts sz tw ct mt at_).i_truncate_seq = ts ∧
      (ceph_fill_file_bits st issued ts sz tw ct mt at_).i_reported_size = sz) ∧
    (¬ (ts > st.i_truncate_seq ∨ (ts = st.i_truncate_seq ∧ sz > st.i_size)) →
      (ceph_fill_file_bits st issued ts sz tw ct mt at_).i_size = st.i_size ∧
      (ceph_fill_file_bits st issued ts sz tw ct mt at_).i_blocks = st.i_blocks ∧
      (ceph_fill_file_bits st issued ts sz tw ct mt at_).i_truncate_seq = st.i_truncate_seq ∧
      (ceph_fill_file_bits st issued ts sz tw ct mt at_).i_reported_size = st.i_reported_size) := by
  have hframe := fillFileBitsTime_size_frame (fillFileBitsSize st ts sz) issued tw ct mt at_
  obtain ⟨h1, h2, h3, h4⟩ := hframe
  unfold ceph_fill_file_bits
  constructor
  · intro hc
    rw [h1, h2, h3, h4]
    unfold fillFileBitsSize
    rw [if_pos hc]
    exact ⟨rfl, blocks_formula sz, rfl, rfl⟩
  · intro hc
    rw [h1, h2, h3, h4]
    unfold fillFileBitsSize
    rw [if_neg hc]
    exact ⟨rfl, rfl, rfl, rfl⟩

/-- Test state of the spec's size-reconciliation scenario: `size=1000`,
`truncate_seq=3`, blocks consistent. -/
def demoExclInode : CInode :=
  { inode0 with i_size := 1000, i_blocks := 2, i_truncate_seq := 3 }

/-- Witness for C1: with EXCL caps held, `size=1000`, `truncate_seq=3`, a
reply carrying `size=500`, `truncate_seq=3` leaves size, blocks,
truncate_seq and reported_size unchanged. -/
theorem fill_file_bits_size_policy_witness :
    demoExclInode.i_size = 1000 ∧ demoExclInode.i_truncate_seq = 3 ∧
    ¬ ((3 : Nat) > demoExclInode.i_truncate_seq ∨
        ((3 : Nat) = demoExclInode.i_truncate_seq ∧ (500 : Nat) > demoExclInode.i_size)) ∧
    ((ceph_fill_file_bits demoExclInode CEPH_CAP_EXCL 3 500 0 ⟨0, 0⟩ ⟨0, 0⟩ ⟨0, 0⟩).i_size =
        demoExclInode.i_size ∧
      (ceph_fill_file_bits demoExclInode CEPH_CAP_EXCL 3 500 0 ⟨0, 0⟩ ⟨0, 0⟩ ⟨0, 0⟩).i_blocks =
        demoExclInode.i_blocks ∧
      (ceph_fill_file_bits demoExclInode CEPH_CAP_EXCL 3 500 0 ⟨0, 0⟩ ⟨0, 0⟩ ⟨0, 0⟩).i_truncate_seq =
        demoExclInode.i_truncate_seq ∧
      (ceph_fill_file_bits demoExclInode CEPH_CAP_EXCL 3 500 0 ⟨0, 0⟩ ⟨0, 0⟩ ⟨0, 0⟩).i_reported_size =
        demoExclInode.i_reported_size) :=
  ⟨by decide, by decide, by decide,
   (fill_file_bits_size_policy demoExclInode CEPH_CAP_EXCL 3 500 0 ⟨0, 0⟩ ⟨0, 0⟩ ⟨0, 0⟩).2
     (by decide)⟩

/-- C2: `truncate_seq` and `time_warp_seq` never decrease, neither through
the attribute reconciler (under any combination of held caps) nor through
`ceph_setattr_time` (whose EXCL branch is the local utimes path). -/
theorem seq_counters_monotone :
    (∀ (st : CInode) (issued ts sz tw : Nat) (ct mt at_ : Timespec),
      st.i_truncate_seq ≤ (ceph_fill_file_bits st issued ts sz tw ct mt at_).i_truncate_seq ∧
      st.i_time_warp_seq ≤ (ceph_fill_file_bits st issued ts sz tw ct mt at_).i_time_warp_seq) ∧
    (∀ (st : CInode) (sess : Option Session) (caps jiffies : Nat)
        (va vm : Bool) (iat imt now : Timespec),
      st.i_truncate_seq ≤ (ceph_setattr_time st sess caps jiffies va vm iat imt now).1.i_truncate_seq ∧
      st.i_time_warp_seq ≤ (ceph_setattr_time st sess caps jiffies va vm iat imt now).1.i_time_warp_seq) := by
  constructor
  · intro st issued ts sz tw ct mt at_
    constructor
    · have h := (fillFileBitsTime_size_frame (fillFileBitsSize st ts sz) issued tw ct mt at_).2.2.2
      unfold ceph_fill_file_bits
      rw [h]
      exact fillFileBitsSize_tseq_mono st ts sz
    · have h := fillFileBitsTime_tw_mono (fillFileBitsSize st ts sz) issued tw ct mt at_
      unfold ceph_fill_file_bits
      rw [fillFileBitsSize_tw_frame st ts sz] at h
      exact h
  · intro st sess caps jiffies va vm iat imt now
    unfold ceph_setattr_time
    dsimp only
    split_ifs <;> dsimp only <;> omega

lemma moveTail_idem (x : Nat) (l : List Nat) :
    moveTail x (moveTail x l) = moveTail x l := by
  simp [moveTail, List.filter_append, List.filter_filter]

/-- C6: applying `update_inode_lease` twice with identical arguments is
idempotent: the second call leaves the inode's lease fields and the
session list exactly as the first left them, returns the same mask, and
takes no extra inode reference. -/
theorem update_inode_lease_idem (st : CInode) (slist : List Nat)
    (ino sessId gen mask dur hz ft : Nat) (hm : mask ≠ 0) :
    let r1 := update_inode_lease st slist ino sessId gen mask dur hz ft
    let r2 := update_inode_lease r1.ci r1.leases ino sessId gen mask dur hz ft
    r2.ci = r1.ci ∧ r2.leases = r1.leases ∧ r2.retMask = r1.retMask ∧
      r2.grabbed = false := by
  intro r1 r2
  by_cases hc : (st.i_lease_ttl = 0 ∨
        ¬ time_before (ft + dur * hz / 1000) st.i_lease_ttl ∨ st.i_lease_gen ≠ gen) ∧
      (st.i_lease_session = none ∨ st.i_lease_session = some sessId)
  · have hirr : ¬ time_before (ft + dur * hz / 1000) (ft + dur * hz / 1000) :=
      lt_irrefl _
    simp only [r2, r1, update_inode_lease, if_neg hm, if_pos hc]
    simp [hirr, moveTail_idem]
  · simp [r2, r1, update_inode_lease, if_neg hm, if_neg hc]

/-- Witness for C6: a concrete double lease update with nonzero mask. -/
theorem update_inode_lease_idem_witness :
    let r1 := update_inode_lease inode0 [] 1 2 3 4 1000 100 0
    let r2 := update_inode_lease r1.ci r1.leases 1 2 3 4 1000 100 0
    r2.ci = r1.ci ∧ r2.leases = r1.leases ∧ r2.retMask = r1.retMask ∧
      r2.grabbed = false :=
  update_inode_lease_idem inode0 [] 1 2 3 4 1000 100 0 (by decide)

/-- The effective lease mask as the claim words it: the stored lease mask,
folded with `ICONTENT` when the request includes `ICONTENT` and some
issued cap includes `EXCL`, with any `ICONTENT` bit implying all
`ICONTENT` bits. -/
def leaseHave (st : CInode) (caps mask : Nat) : Nat :=
  let base := st.i_lease_mask
  let folded :=
    if mask &&& CEPH_LOCK_ICONTENT ≠ 0 ∧ caps &&& CEPH_CAP_EXCL ≠ 0 then
      base ||| CEPH_LOCK_ICONTENT
    else base
  if folded &&& CEPH_LOCK_ICONTENT ≠ 0 then folded ||| CEPH_LOCK_ICONTENT else folded

/-- C4: for an inode with a lease slot, `ceph_inode_lease_valid` returns
true iff the lease's session is still active (generation match and both
TTLs in the future) and the effective mask covers the requested one; in
particular a rolled session generation makes it false even with a future
TTL. -/
theorem inode_lease_valid_iff (st : CInode) (s : Session) (caps jiffies mask : Nat) :
    (ceph_inode_lease_valid st (some s) caps jiffies mask = true ↔
      ((s.cap_gen = st.i_lease_gen ∧ jiffies < s.cap_ttl ∧ jiffies < st.i_lease_ttl) ∧
        leaseHave st caps mask &&& mask = mask)) ∧
    (s.cap_gen ≠ st.i_lease_gen →
      ceph_inode_lease_valid st (some s) caps jiffies mask = false) := by
  constructor
  · simp [ceph_inode_lease_valid, leaseHave, time_before, and_assoc]
  · intro h
    simp [ceph_inode_lease_valid, leaseHave, time_before, h]

/-- Test state of the spec's lease-generation-roll scenario: a lease
recorded at generation 7 with a TTL still in the future. -/
def demoLeaseInode : CInode :=
  { inode0 with i_lease_mask := CEPH_LOCK_DN, i_lease_gen := 7, i_lease_ttl := 100 }

/-- Witness for C4: after the session generation rolls from 7 to 8 the
lease is invalid even though `jiffies = 10` is before both TTLs. -/
theorem inode_lease_valid_iff_witness :
    (Session.mk 8 100).cap_gen ≠ demoLeaseInode.i_lease_gen ∧
    (10 : Nat) < demoLeaseInode.i_lease_ttl ∧
    ceph_inode_lease_valid demoLeaseInode (some ⟨8, 100⟩) 0 10 CEPH_LOCK_DN = false :=
  ⟨by decide, by decide,
   (inode_lease_valid_iff demoLeaseInode ⟨8, 100⟩ 0 10 CEPH_LOCK_DN).2 (by decide)⟩

/-- The C5 invariant: blocks track the size in ceiling 512-byte units. -/
def blocksInv (st : CInode) : Prop := st.i_blocks = (st.i_size + 511) / 512

instance (st : CInode) : Decidable (blocksInv st) := by
  unfold blocksInv; infer_instance

/-- C5 (amended): the `blocks = ceil(size/512)` invariant is maintained by
the attribute reconciler and (unconditionally re-established) by
`ceph_inode_set_size`; `ceph_setattr_size` however never recomputes
`i_blocks` in any of its branches, so its local EXCL forward truncate
changes the size while leaving blocks stale. -/
theorem blocks_invariant_ops :
    (∀ (st : CInode) (issued ts sz tw : Nat) (ct mt at_ : Timespec),
      blocksInv st → blocksInv (ceph_fill_file_bits st issued ts sz tw ct mt at_)) ∧
    (∀ (st : CInode) (sz : Nat), blocksInv (ceph_inode_set_size st sz).1) ∧
    (∀ (st : CInode) (sess : Option Session) (caps jiffies sz : Nat) (ct : Timespec),
      (ceph_setattr_size st sess caps jiffies sz ct).1.i_blocks = st.i_blocks) := by
  refine ⟨?_, ?_, ?_⟩
  · intro st issued ts sz tw ct mt at_ hinv
    unfold blocksInv
    have hf := fillFileBitsTime_size_frame (fillFileBitsSize st ts sz) issued tw ct mt at_
    unfold ceph_fill_file_bits
    rw [hf.1, hf.2.1]
    unfold fillFileBitsSize
    split
    · exact blocks_formula sz
    · exact hinv
  · intro st sz
    unfold blocksInv ceph_inode_set_size
    exact blocks_formula sz
  · intro st sess caps jiffies sz ct
    unfold ceph_setattr_size
    split_ifs <;> rfl

/-- Witness for C5's amended statement: the reconciler preserves the
invariant on a concrete accepting update. -/
theorem blocks_invariant_ops_witness :
    blocksInv inode0 ∧
    blocksInv (ceph_fill_file_bits inode0 0 1 700 0 ⟨0, 0⟩ ⟨0, 0⟩ ⟨0, 0⟩) :=
  ⟨by decide, blocks_invariant_ops.1 inode0 0 1 700 0 ⟨0, 0⟩ ⟨0, 0⟩ ⟨0, 0⟩ (by decide)⟩

/-- Counterexample to C5 as stated: starting from a consistent inode
(size 0, blocks 0), the local EXCL forward truncate to 1000 bytes leaves
`blocks = 0` instead of `ceil(1000/512) = 2`, so the invariant does not
hold after every size-changing operation. -/
theorem setattr_size_blocks_cex :
    blocksInv inode0 ∧
    (CEPH_CAP_EXCL &&& CEPH_CAP_EXCL ≠ 0 ∧ (1000 : Nat) > inode0.i_size) ∧
    (ceph_setattr_size inode0 none CEPH_CAP_EXCL 0 1000 ⟨0, 0⟩).1.i_size = 1000 ∧
    ¬ blocksInv (ceph_setattr_size inode0 none CEPH_CAP_EXCL 0 1000 ⟨0, 0⟩).1 := by
  decide

lemma lor_shiftLeft_eq_add {a b : Nat} (c : Nat) (h : a < 2 ^ b) :
    a ||| (c <<< b) = a + c * 2 ^ b := by
  rw [Nat.lor_comm, Nat.shiftLeft_eq, Nat.mul_comm c (2 ^ b),
      ← Nat.mul_add_lt_is_or h c, Nat.add_comm, Nat.mul_comm (2 ^ b) c]

lemma mod_pow_add_split (v b s : Nat) :
    v % 2 ^ (b + s) = v % 2 ^ b + 2 ^ b * (v / 2 ^ b % 2 ^ s) := by
  rw [Nat.pow_add]
  calc v % (2 ^ b * 2 ^ s)
      = 2 ^ b * (v % (2 ^ b * 2 ^ s) / 2 ^ b) + v % (2 ^ b * 2 ^ s) % 2 ^ b :=
        (Nat.div_add_mod _ _).symm
    _ = 2 ^ b * (v / 2 ^ b % 2 ^ s) + v % 2 ^ b := by
        rw [Nat.mod_mul_right_div_self, Nat.mod_mul_right_mod]
    _ = v % 2 ^ b + 2 ^ b * (v / 2 ^ b % 2 ^ s) := Nat.add_comm _ _

lemma chooseChild_spec (t : Frag) (sb v : Nat) (h : frag_contains_value t v) :
    ∃ n, chooseChild t sb v = some n ∧ frag_contains_value n v ∧
      n.bits = t.bits + sb := by
  have hvlt : t.value < 2 ^ t.bits := h ▸ Nat.mod_lt _ (Nat.two_pow_pos _)
  have hi0lt : v / 2 ^ t.bits % 2 ^ sb < 2 ^ sb := Nat.mod_lt _ (Nat.two_pow_pos _)
  have hcontains : frag_contains_value (frag_child t sb (v / 2 ^ t.bits % 2 ^ sb)) v := by
    unfold frag_child frag_make frag_bits frag_value frag_contains_value
    dsimp only
    rw [lor_shiftLeft_eq_add _ hvlt]
    have hlt : t.value + v / 2 ^ t.bits % 2 ^ sb * 2 ^ t.bits < 2 ^ (t.bits + sb) := by
      have h1 : t.value + v / 2 ^ t.bits % 2 ^ sb * 2 ^ t.bits <
          (v / 2 ^ t.bits % 2 ^ sb + 1) * 2 ^ t.bits := by
        rw [Nat.succ_mul]
        omega
      have h2 : (v / 2 ^ t.bits % 2 ^ sb + 1) * 2 ^ t.bits ≤ 2 ^ sb * 2 ^ t.bits :=
        Nat.mul_le_mul_right _ hi0lt
      calc t.value + v / 2 ^ t.bits % 2 ^ sb * 2 ^ t.bits
          < 2 ^ sb * 2 ^ t.bits := Nat.lt_of_lt_of_le h1 h2
        _ = 2 ^ (t.bits + sb) := by rw [← Nat.pow_add, Nat.add_comm]
    rw [Nat.mod_eq_of_lt hlt, mod_pow_add_split v t.bits sb, h, Nat.mul_comm]
  have hmem : v / 2 ^ t.bits % 2 ^ sb ∈ List.range (1 <<< sb) := by
    rw [List.mem_range, Nat.one_shiftLeft]
    exact hi0lt
  have hsome : ((List.range (1 <<< sb)).find?
      (fun i => decide (frag_contains_value (frag_child t sb i) v))).isSome := by
    rw [List.find?_isSome]
    exact ⟨_, hmem, by simpa using hcontains⟩
  obtain ⟨i, hfind⟩ := Option.isSome_iff_exists.mp hsome
  refine ⟨frag_child t sb i, ?_, ?_, rfl⟩
  · unfold chooseChild
    rw [hfind]
    rfl
  · simpa using List.find?_some hfind

/-- Count of tree entries whose key has at least `b` meaningful bits: the
termination measure of the `ceph_choose_frag` descent. -/
def bitsCount (tree : FragTree) (b : Nat) : Nat :=
  tree.countP (fun p => decide (b ≤ p.1.bits))

lemma countP_lt_of_mem {α : Type} {l : List α} {p q : α → Bool}
    (himp : ∀ x ∈ l, q x = true → p x = true) {x : α} (hx : x ∈ l)
    (hp : p x = true) (hq : q x = false) : l.countP q < l.countP p := by
  induction l with
  | nil => cases hx
  | cons a as ih =>
    rw [List.countP_cons, List.countP_cons]
    rcases List.mem_cons.mp hx with rfl | hx'
    · have hle : as.countP q ≤ as.countP p :=
        List.countP_mono_left (fun y hy => himp y (List.mem_cons_of_mem _ hy))
      simp [hp, hq]
      omega
    · have ih' := ih (fun y hy => himp y (List.mem_cons_of_mem _ hy)) hx'
      by_cases hqa : q a = true
      · have hpa := himp a (List.mem_cons_self _ _) hqa
        simp [hqa, hpa]
        omega
      · simp only [Bool.not_eq_true] at hqa
        simp [hqa]
        omega

lemma bitsCount_lt (tree : FragTree) {t : Frag} {nd : FragNode} {b : Nat}
    (hfind : __ceph_find_frag tree t = some nd) (hb : t.bits < b) :
    bitsCount tree b < bitsCount tree t.bits := by
  unfold __ceph_find_frag at hfind
  obtain ⟨e, hfe⟩ : ∃ e, tree.find? (fun p => p.1 == t) = some e := by
    cases hf : tree.find? (fun p => p.1 == t) with
    | none => rw [hf] at hfind; cases hfind
    | some e => exact ⟨e, rfl⟩
  have hmem := List.mem_of_find?_eq_some hfe
  have hkey : e.1 = t := by simpa using List.find?_some hfe
  unfold bitsCount
  refine countP_lt_of_mem ?_ hmem ?_ ?_
  · intro x _ hqx
    simp only [decide_eq_true_eq] at hqx ⊢
    omega
  · simp [hkey]
  · simp [hkey]
    omega

lemma choose_frag_go_ok (tree : FragTree) (v : Nat) :
    ∀ (fuel : Nat) (t : Frag), frag_contains_value t v →
      bitsCount tree t.bits < fuel →
      ∃ f, ceph_choose_frag_go tree v fuel t = some f ∧ frag_contains_value f v := by
  intro fuel
  induction fuel with
  | zero =>
    intro t _ hc
    omega
  | succ m ih =>
    intro t ht hc
    cases hfind : __ceph_find_frag tree t with
    | none =>
      unfold ceph_choose_frag_go
      rw [hfind]
      exact ⟨t, rfl, ht⟩
    | some frag =>
      unfold ceph_choose_frag_go
      rw [hfind]
      dsimp only
      by_cases hsb : frag.split_by = 0
      · rw [if_pos hsb]
        exact ⟨t, rfl, ht⟩
      · rw [if_neg hsb]
        obtain ⟨n, hn, hnc, hnb⟩ := chooseChild_spec t frag.split_by v ht
        rw [hn]
        apply ih n hnc
        have hlt : bitsCount tree n.bits < bitsCount tree t.bits := by
          apply bitsCount_lt tree hfind
          omega
        omega

/-- C3: for every fragment tree and every hash value, the
`ceph_choose_frag` descent preserves its loop invariant (each step moves
to a frag still containing `v`), never hits the `BUG_ON`, terminates
within `tree.length + 1` iterations, and returns a frag containing `v`. -/
theorem ceph_choose_frag_contains (tree : FragTree) (v : Nat) :
    (∀ (t : Frag) (sb : Nat) (n : Frag), frag_contains_value t v →
      chooseChild t sb v = some n → frag_contains_value n v) ∧
    ∃ f, ceph_choose_frag tree v = some f ∧ frag_contains_value f v := by
  constructor
  · intro t sb n ht hn
    obtain ⟨n', hn', hnc, _⟩ := chooseChild_spec t sb v ht
    rw [hn'] at hn
    cases hn
    exact hnc
  · apply choose_frag_go_ok tree v (tree.length + 1) (frag_make 0 0)
    · simp [frag_contains_value, frag_make, Nat.mod_one]
    · have := List.countP_le_length
        (p := fun p : Frag × FragNode => decide ((frag_make 0 0).bits ≤ p.1.bits))
        (l := tree)
      unfold bitsCount
      omega

/-- A concrete two-level fragment tree: the root splits in two; the `1`
child is a delegated leaf. -/
def demoFragTree : FragTree :=
  [(frag_make 0 0, ⟨1, -1, 0, []⟩), (frag_make 1 1, ⟨0, 3, 1, [2]⟩)]

/-- Witness for C3: on the concrete two-level tree, choosing for `v = 5`
descends to the `(bits 1, value 1)` leaf, which contains 5. -/
theorem ceph_choose_frag_contains_witness :
    ceph_choose_frag demoFragTree 5 = some (frag_make 1 1) ∧
    ∃ f, ceph_choose_frag demoFragTree 5 = some f ∧ frag_contains_value f 5 :=
  ⟨by decide, (ceph_choose_frag_contains demoFragTree 5).2⟩

/-- Apply the optional dirfrag update of `ceph_fill_inode`. -/
def applyDirfrag (tree : FragTree) (dirinfo : Option DirfragInfo) : FragTree :=
  match dirinfo with
  | none => tree
  | some di => ceph_fill_dirfrag tree di

lemma fillFileBitsSize_fragtree (st : CInode) (ts sz : Nat) :
    (fillFileBitsSize st ts sz).i_fragtree = st.i_fragtree := by
  unfold fillFileBitsSize
  split <;> rfl

lemma fillFileBitsTime_fragtree (st : CInode) (issued tw : Nat)
    (ct mt at_ : Timespec) :
    (fillFileBitsTime st issued tw ct mt at_).i_fragtree = st.i_fragtree := by
  unfold fillFileBitsTime
  dsimp only
  split_ifs <;> rfl

lemma fill_file_bits_fragtree (st : CInode) (issued ts sz tw : Nat)
    (ct mt at_ : Timespec) :
    (ceph_fill_file_bits st issued ts sz tw ct mt at_).i_fragtree = st.i_fragtree := by
  unfold ceph_fill_file_bits
  rw [fillFileBitsTime_fragtree, fillFileBitsSize_fragtree]

lemma fillInodeAttrUpdate_fragtree (st : CInode) (info : MdsInodeInfo) (issued : Nat) :
    (fillInodeAttrUpdate st info issued).i_fragtree = st.i_fragtree := by
  unfold fillInodeAttrUpdate
  dsimp only
  split_ifs <;> simp [fill_file_bits_fragtree]

lemma fillInodeTypeDispatch_fragtree (st3 : CInode) (info : MdsInodeInfo)
    (flag : Bool) :
    (fillInodeTypeDispatch st3 info flag).1.i_fragtree = st3.i_fragtree := by
  unfold fillInodeTypeDispatch
  dsimp only
  split_ifs <;> first | rfl | (split <;> rfl)

lemma fill_inode_fragtree (st : CInode) (info : MdsInodeInfo)
    (dirinfo : Option DirfragInfo) (issued : Nat) (flag : Bool) :
    (ceph_fill_inode st info dirinfo issued flag).1.i_fragtree =
      applyDirfrag (mergeSplits st.i_fragtree info.fragtree_splits) dirinfo := by
  unfold ceph_fill_inode
  dsimp only
  rw [fillInodeTypeDispatch_fragtree]
  cases dirinfo with
  | none =>
    dsimp only [applyDirfrag]
    split_ifs <;> simp [fillInodeAttrUpdate_fragtree]
  | some di =>
    dsimp only [applyDirfrag]
    split_ifs <;> simp [fillInodeAttrUpdate_fragtree]

/-- A fragment node that earns its place in the tree: it is a split, or it
carries delegation info. -/
def FragNodeOk (nd : FragNode) : Prop :=
  0 < nd.split_by ∨ 0 ≤ nd.mds ∨ 0 < nd.ndist

instance (nd : FragNode) : Decidable (FragNodeOk nd) := by
  unfold FragNodeOk; infer_instance

/-- The C7 invariant over a fragment tree. -/
def fragInv (tree : FragTree) : Prop := ∀ p ∈ tree, FragNodeOk p.2

instance (tree : FragTree) : Decidable (fragInv tree) :=
  List.decidableBAll _ tree

lemma fragInv_set_goc (tree : FragTree) (f : Frag) (g : FragNode → FragNode)
    (hinv : fragInv tree) (hg : ∀ nd, FragNodeOk (g nd)) :
    fragInv (setFragMap (__get_or_create_frag tree f) f g) := by
  intro p hp
  unfold setFragMap at hp
  obtain ⟨q, hq, hpe⟩ := List.mem_map.mp hp
  by_cases hk : q.1 == f
  · rw [if_pos hk] at hpe
    rw [← hpe]
    exact hg q.2
  · rw [if_neg hk] at hpe
    subst hpe
    have hqt : q ∈ tree := by
      unfold __get_or_create_frag at hq
      split at hq
      · exact hq
      · rcases List.mem_append.mp hq with h | h
        · exact h
        · rw [List.mem_singleton] at h
          rw [h] at hk
          simp at hk
    exact hinv q hqt

lemma fragInv_mergeSplits (splits : List (Frag × Nat)) :
    ∀ tree : FragTree, fragInv tree → (∀ s ∈ splits, 0 < s.2) →
      fragInv (mergeSplits tree splits) := by
  induction splits with
  | nil =>
    intro tree h _
    simpa [mergeSplits] using h
  | cons s rest ih =>
    intro tree h hs
    unfold mergeSplits at ih ⊢
    rw [List.foldl_cons]
    apply ih
    · apply fragInv_set_goc _ _ _ h
      intro nd
      unfold FragNodeOk
      exact Or.inl (hs s (List.mem_cons_self _ _))
    · intro x hx
      exact hs x (List.mem_cons_of_mem _ hx)

lemma fragInv_fill_dirfrag (tree : FragTree) (di : DirfragInfo)
    (hinv : fragInv tree) : fragInv (ceph_fill_dirfrag tree di) := by
  unfold ceph_fill_dirfrag
  split_ifs with hcase
  · split
    · exact hinv
    · rename_i fr hfind
      split_ifs with hsb
      · intro p hp
        exact hinv p (List.mem_of_mem_filter hp)
      · intro p hp
        unfold setFragMap at hp
        obtain ⟨q, hq, hpe⟩ := List.mem_map.mp hp
        by_cases hk : q.1 == di.frag
        · rw [if_pos hk] at hpe
          subst hpe
          unfold FragNodeOk
          left
          dsimp only
          omega
        · rw [if_neg hk] at hpe
          subst hpe
          exact hinv q hq
  · apply fragInv_set_goc _ _ _ hinv
    intro nd
    unfold FragNodeOk
    dsimp only
    rcases not_and_or.mp hcase with h | h
    · right; left
      omega
    · right; right
      simp only [MAX_DIRFRAG_REP]
      omega

lemma fill_dirfrag_removes (tree : FragTree) (di : DirfragInfo)
    (ha : di.auth < 0) (hn : di.ndist = 0)
    (hleaf : ∀ nd, __ceph_find_frag tree di.frag = some nd → nd.split_by = 0) :
    __ceph_find_frag (ceph_fill_dirfrag tree di) di.frag = none := by
  unfold ceph_fill_dirfrag
  rw [if_pos ⟨ha, hn⟩]
  cases hfind : __ceph_find_frag tree di.frag with
  | none => exact hfind
  | some fr =>
    dsimp only
    rw [if_pos (hleaf fr hfind)]
    unfold __ceph_find_frag eraseFrag
    rw [Option.map_eq_none']
    rw [List.find?_eq_none]
    intro x hx
    have hx2 := (List.mem_filter.mp hx).2
    simp only [bne_iff_ne, ne_eq] at hx2
    simp [hx2]

/-- C7 (amended): fragment-tree mutations preserve the "every stored node
is a split or carries delegation info" invariant — for `ceph_fill_inode`
provided every reported split has `by > 0` (a `by = 0` split record makes
the code store a bare node, see the counterexample), and for
`ceph_fill_dirfrag` unconditionally; moreover a dirfrag reply without
delegation info removes a bare leaf rather than storing it. -/
theorem fragtree_invariant_preserved :
    (∀ (st : CInode) (info : MdsInodeInfo) (dirinfo : Option DirfragInfo)
        (issued : Nat) (flag : Bool),
      fragInv st.i_fragtree → (∀ s ∈ info.fragtree_splits, 0 < s.2) →
      fragInv (ceph_fill_inode st info dirinfo issued flag).1.i_fragtree) ∧
    (∀ (tree : FragTree) (di : DirfragInfo),
      fragInv tree → fragInv (ceph_fill_dirfrag tree di)) ∧
    (∀ (tree : FragTree) (di : DirfragInfo), di.auth < 0 → di.ndist = 0 →
      (∀ nd, __ceph_find_frag tree di.frag = some nd → nd.split_by = 0) →
      __ceph_find_frag (ceph_fill_dirfrag tree di) di.frag = none) := by
  refine ⟨?_, fragInv_fill_dirfrag, fill_dirfrag_removes⟩
  intro st info dirinfo issued flag hinv hs
  rw [fill_inode_fragtree]
  cases dirinfo with
  | none => exact fragInv_mergeSplits _ _ hinv hs
  | some di => exact fragInv_fill_dirfrag _ _ (fragInv_mergeSplits _ _ hinv hs)

/-- An all-zero MDS inode info, used as the base of concrete test replies. -/
def info0 : MdsInodeInfo :=
  { version := 0, mode := 0, uid := 0, gid := 0, nlink := 0, rdev := 0,
    truncate_seq := 0, size := 0, time_warp_seq := 0, max_size := 0, layout := 0,
    ctime := ⟨0, 0⟩, mtime := ⟨0, 0⟩, atime := ⟨0, 0⟩, rctime := ⟨0, 0⟩,
    files := 0, subdirs := 0, rbytes := 0, rfiles := 0, rsubdirs := 0,
    fragtree_splits := [], symlink := [], xattr := [] }

/-- A reply carrying a fragtree split record with `by = 0`. -/
def c7BadInfo : MdsInodeInfo :=
  { info0 with mode := S_IFREG, fragtree_splits := [(frag_make 0 0, 0)] }

/-- Counterexample to C7 as stated: merging a reply whose split record has
`by = 0` into an empty tree stores a node with `split_by = 0`,
`mds = -1` and `ndist = 0`, violating the invariant after a fill-inode
fragment-tree mutation. -/
theorem fill_inode_fragtree_cex :
    fragInv inode0.i_fragtree ∧
    ¬ fragInv (ceph_fill_inode inode0 c7BadInfo none 0 false).1.i_fragtree := by
  decide

/-- A reply carrying a proper fragtree split record (`by = 1`). -/
def c7GoodInfo : MdsInodeInfo :=
  { info0 with mode := S_IFREG, fragtree_splits := [(frag_make 0 0, 1)] }

/-- Witness for C7's amended statement on a concrete split merge. -/
theorem fragtree_invariant_preserved_witness :
    fragInv (ceph_fill_inode inode0 c7GoodInfo none 0 false).1.i_fragtree :=
  fragtree_invariant_preserved.1 inode0 c7GoodInfo none 0 false
    (by decide) (by decide)

/-- The attributes C8 asserts to be frozen by a matching version: identity
bits, size accounting (except `i_size` itself, treated separately),
sequence counters, `max_size`, layout, the xattr blob, the timestamps and
the cached versions. -/
def VersionSkipFrame (st r : CInode) : Prop :=
  r.i_version = st.i_version ∧ r.vfs_version = st.vfs_version ∧
  r.i_mode = st.i_mode ∧ r.i_uid = st.i_uid ∧ r.i_gid = st.i_gid ∧
  r.i_nlink = st.i_nlink ∧ r.i_rdev = st.i_rdev ∧ r.i_blocks = st.i_blocks ∧
  r.i_reported_size = st.i_reported_size ∧
  r.i_truncate_seq = st.i_truncate_seq ∧ r.i_time_warp_seq = st.i_time_warp_seq ∧
  r.i_max_size = st.i_max_size ∧ r.i_layout = st.i_layout ∧
  r.i_xattr_data = st.i_xattr_data ∧ r.i_ctime = st.i_ctime ∧
  r.i_mtime = st.i_mtime ∧ r.i_atime = st.i_atime ∧ r.i_old_atime = st.i_old_atime

instance (st r : CInode) : Decidable (VersionSkipFrame st r) := by
  unfold VersionSkipFrame; infer_instance

lemma fillInodeTypeDispatch_frame (st3 : CInode) (info : MdsInodeInfo) (flag : Bool) :
    VersionSkipFrame st3 (fillInodeTypeDispatch st3 info flag).1 := by
  unfold VersionSkipFrame fillInodeTypeDispatch
  dsimp only
  split_ifs <;>
    first
      | exact ⟨rfl, rfl, rfl, rfl, rfl, rfl, rfl, rfl, rfl, rfl, rfl, rfl, rfl,
               rfl, rfl, rfl, rfl, rfl⟩
      | (split <;>
          exact ⟨rfl, rfl, rfl, rfl, rfl, rfl, rfl, rfl, rfl, rfl, rfl, rfl, rfl,
                 rfl, rfl, rfl, rfl, rfl⟩)

lemma fillInodeTypeDispatch_size (st3 : CInode) (info : MdsInodeInfo) (flag : Bool)
    (h : st3.i_mode &&& S_IFMT ≠ S_IFDIR ∨ flag = false) :
    (fillInodeTypeDispatch st3 info flag).1.i_size = st3.i_size := by
  unfold fillInodeTypeDispatch
  dsimp only
  split_ifs with hA hB hC hD hE
  · rfl
  · rfl
  · split <;> rfl
  · rcases h with h | h
    · exact absurd hD h
    · rw [h] at hE
      cases hE
  · rfl
  · rfl

lemma fill_inode_skip_eq (st : CInode) (info : MdsInodeInfo)
    (dirinfo : Option DirfragInfo) (issued : Nat) (flag : Bool)
    (h1 : 0 < info.version) (h2 : st.i_version = info.version) :
    ceph_fill_inode st info dirinfo issued flag =
      fillInodeTypeDispatch
        { st with i_fragtree :=
            applyDirfrag (mergeSplits st.i_fragtree info.fragtree_splits) dirinfo }
        info flag := by
  unfold ceph_fill_inode
  dsimp only
  rw [if_pos ⟨h1, h2⟩]
  cases dirinfo with
  | none => rfl
  | some di => rfl

/-- C8 (amended): when the reply's version is nonzero and equals the
cached one, `ceph_fill_inode` leaves the cached attributes (mode, uid,
gid, nlink, rdev, blocks, reported size, sequence counters, max_size,
layout, xattr blob, timestamps, versions) unchanged while still merging
the fragment-tree splits and, when supplied, the dirfrag delegation info;
`i_size` too is unchanged for non-directories or without the RBYTES mount
flag, but the type-dispatch tail refreshes a directory's recursive stats
regardless and, under RBYTES, mirrors the reply's `rbytes` into the size
even on the skip path (see the counterexample). -/
theorem fill_inode_version_skip (st : CInode) (info : MdsInodeInfo)
    (dirinfo : Option DirfragInfo) (issued : Nat) (flag : Bool)
    (h1 : 0 < info.version) (h2 : st.i_version = info.version) :
    VersionSkipFrame st (ceph_fill_inode st info dirinfo issued flag).1 ∧
    (st.i_mode &&& S_IFMT ≠ S_IFDIR ∨ flag = false →
      (ceph_fill_inode st info dirinfo issued flag).1.i_size = st.i_size) ∧
    (ceph_fill_inode st info dirinfo issued flag).1.i_fragtree =
      applyDirfrag (mergeSplits st.i_fragtree info.fragtree_splits) dirinfo := by
  have he := fill_inode_skip_eq st info dirinfo issued flag h1 h2
  rw [he]
  refine ⟨fillInodeTypeDispatch_frame _ info flag, ?_, ?_⟩
  · intro h
    exact fillInodeTypeDispatch_size _ info flag h
  · rw [fillInodeTypeDispatch_fragtree]

/-- A cached directory inode at version 5. -/
def c8Inode : CInode := { inode0 with i_version := 5, i_mode := S_IFDIR }

/-- A version-matching reply for that directory carrying `rbytes = 7`. -/
def c8Info : MdsInodeInfo := { info0 with version := 5, mode := S_IFDIR, rbytes := 7 }

/-- Counterexample to C8 as stated: on a version-matching reply for a
directory mounted with RBYTES, `ceph_fill_inode` still changes the cached
size (to the reply's `rbytes`), because the type-dispatch tail runs after
the `no_change` label. -/
theorem fill_inode_version_skip_cex :
    0 < c8Info.version ∧ c8Inode.i_version = c8Info.version ∧
    (ceph_fill_inode c8Inode c8Info none 0 true).1.i_size ≠ c8Inode.i_size := by
  decide

/-- Witness for C8's amended statement: the same version-matching reply
without the RBYTES flag leaves all the listed attributes, including the
size, unchanged, while the fragtree merge still runs. -/
theorem fill_inode_version_skip_witness :
    0 < c8Info.version ∧
    (VersionSkipFrame c8Inode (ceph_fill_inode c8Inode c8Info none 0 false).1 ∧
      (c8Inode.i_mode &&& S_IFMT ≠ S_IFDIR ∨ false = false →
        (ceph_fill_inode c8Inode c8Info none 0 false).1.i_size = c8Inode.i_size) ∧
      (ceph_fill_inode c8Inode c8Info none 0 false).1.i_fragtree =
        applyDirfrag (mergeSplits c8Inode.i_fragtree c8Info.fragtree_splits) none) :=
  ⟨by decide, fill_inode_version_skip c8Inode c8Info none 0 false (by decide) (by decide)⟩

lemma decode32_toLE32 (n : Nat) (rest : List Nat) (h : n < 2 ^ 32) :
    decode32 (toLE32 n ++ rest) = some (n, rest) := by
  simp only [toLE32, List.cons_append, List.nil_append, decode32]
  have hn : n % 256 + n / 256 % 256 * 256 + n / 65536 % 256 * 65536 +
      n / 16777216 % 256 * 16777216 = n := by omega
  rw [hn]

lemma xattrScan_encode (name : List Nat) (size : Nat) :
    ∀ xs : List (List Nat × List Nat),
      (∀ e ∈ xs, e.1.length < 2 ^ 32 ∧ e.2.length < 2 ^ 32) →
      xattrScan name size xs.length (encodeXattrBody xs) =
        match xs.find? (fun e => e.1 == name) with
        | none => .enodata
        | some e =>
          if size ≠ 0 ∧ size < e.2.length then .erange
          else if size = 0 then .retLen e.2.length
          else .retCopy e.2.length e.2 := by
  intro xs
  induction xs with
  | nil => intro _; rfl
  | cons e rest ih =>
    intro hlen
    have he := hlen e (List.mem_cons_self _ _)
    have hrest : ∀ x ∈ rest, x.1.length < 2 ^ 32 ∧ x.2.length < 2 ^ 32 :=
      fun x hx => hlen x (List.mem_cons_of_mem _ hx)
    have hbody : encodeXattrBody (e :: rest) =
        toLE32 e.1.length ++ (e.1 ++ (toLE32 e.2.length ++ (e.2 ++ encodeXattrBody rest))) := by
      simp [encodeXattrBody, encodeXattrEntry, List.append_assoc]
    show xattrScan name size (rest.length + 1) (encodeXattrBody (e :: rest)) = _
    unfold xattrScan
    rw [hbody, decode32_toLE32 _ _ he.1]
    dsimp only
    simp only [List.take_left, List.drop_left]
    rw [decode32_toLE32 _ _ he.2]
    dsimp only
    simp only [List.take_left, List.drop_left]
    by_cases hm : e.1 = name
    · subst hm
      rw [List.find?_cons_of_pos _ (by simp)]
      simp
    · have hb : (e.1 == name) = false := by simp [hm]
      rw [List.find?_cons_of_neg _ (by simp [hm])]
      simp only [hb, Bool.and_false]
      rw [if_neg (by simp)]
      exact ih hrest

lemma getxattr_blob_encode (xs : List (List Nat × List Nat)) (name : List Nat)
    (size : Nat) (hc : xs.length < 2 ^ 32) :
    ceph_getxattr_blob (encodeXattrs xs) name size =
      xattrScan name size xs.length (encodeXattrBody xs) := by
  unfold ceph_getxattr_blob encodeXattrs
  rw [if_neg (by simp [toLE32])]
  rw [decode32_toLE32 _ _ hc]

/-- C9 (amended): on a well-formed cached blob, `getxattr` returns the
required length on a zero-size probe, `Range` (copying nothing) when
`0 < size < len`, and the copied value otherwise; an absent name gives
`NoData`; and a blob whose bounds-checked length decode fails (here: too
short to hold the count) gives `IO`.  A malformation lying beyond the
bytes the scan examines is not detected (see the counterexample). -/
theorem getxattr_blob_contract :
    (∀ (xs : List (List Nat × List Nat)) (name val : List Nat) (size : Nat),
      xs.length < 2 ^ 32 →
      (∀ e ∈ xs, e.1.length < 2 ^ 32 ∧ e.2.length < 2 ^ 32) →
      (xs.find? (fun e => e.1 == name)).map (·.2) = some val →
      (size = 0 → ceph_getxattr_blob (encodeXattrs xs) name size = .retLen val.length) ∧
      (size ≠ 0 → size < val.length →
        ceph_getxattr_blob (encodeXattrs xs) name size = .erange) ∧
      (size ≠ 0 → val.length ≤ size →
        ceph_getxattr_blob (encodeXattrs xs) name size = .retCopy val.length val)) ∧
    (∀ (xs : List (List Nat × List Nat)) (name : List Nat) (size : Nat),
      xs.length < 2 ^ 32 →
      (∀ e ∈ xs, e.1.length < 2 ^ 32 ∧ e.2.length < 2 ^ 32) →
      xs.find? (fun e => e.1 == name) = none →
      ceph_getxattr_blob (encodeXattrs xs) name size = .enodata) ∧
    (∀ (blob name : List Nat) (size : Nat),
      blob ≠ [] → blob.length < 4 →
      ceph_getxattr_blob blob name size = .eio) := by
  refine ⟨?_, ?_, ?_⟩
  · intro xs name val size hc hl hfind
    obtain ⟨e, hfe, hval⟩ : ∃ e, xs.find? (fun e => e.1 == name) = some e ∧ e.2 = val := by
      cases hf : xs.find? (fun e => e.1 == name) with
      | none => rw [hf] at hfind; cases hfind
      | some e =>
        rw [hf] at hfind
        exact ⟨e, rfl, by simpa using hfind⟩
    rw [getxattr_blob_encode xs name size hc, xattrScan_encode name size xs hl, hfe]
    dsimp only
    subst hval
    refine ⟨?_, ?_, ?_⟩
    · intro h0
      rw [if_neg (by simp [h0]), if_pos h0]
    · intro h0 hr
      rw [if_pos ⟨h0, hr⟩]
    · intro h0 hr
      rw [if_neg (by omega), if_neg h0]
  · intro xs name size hc hl hfind
    rw [getxattr_blob_encode xs name size hc, xattrScan_encode name size xs hl, hfind]
  · intro blob name size h0 h4
    unfold ceph_getxattr_blob
    rw [if_neg (fun hh => h0 (List.length_eq_zero.mp hh))]
    rcases blob with _ | ⟨a, _ | ⟨b, _ | ⟨c, _ | ⟨d, t⟩⟩⟩⟩
    · simp at h0
    · rfl
    · rfl
    · rfl
    · exfalso
      simp only [List.length_cons] at h4
      omega

/-- A concrete one-entry xattr list: name `"a"` (byte 97), 3-byte value. -/
def demoXattrs : List (List Nat × List Nat) := [([97], [1, 2, 3])]

/-- Witness for C9's amended statement: the length probe, the short
buffer, the copy and the absent-name case on a concrete blob. -/
theorem getxattr_blob_contract_witness :
    ceph_getxattr_blob (encodeXattrs demoXattrs) [97] 0 = .retLen 3 ∧
    ceph_getxattr_blob (encodeXattrs demoXattrs) [97] 2 = .erange ∧
    ceph_getxattr_blob (encodeXattrs demoXattrs) [97] 3 = .retCopy 3 [1, 2, 3] ∧
    ceph_getxattr_blob (encodeXattrs demoXattrs) [98] 5 = .enodata ∧
    ceph_getxattr_blob [7] [97] 0 = .eio :=
  ⟨(getxattr_blob_contract.1 demoXattrs [97] [1, 2, 3] 0 (by decide) (by decide)
      (by decide)).1 rfl,
   (getxattr_blob_contract.1 demoXattrs [97] [1, 2, 3] 2 (by decide) (by decide)
      (by decide)).2.1 (by decide) (by decide),
   (getxattr_blob_contract.1 demoXattrs [97] [1, 2, 3] 3 (by decide) (by decide)
      (by decide)).2.2 (by decide) (by decide),
   getxattr_blob_contract.2.1 demoXattrs [98] 5 (by decide) (by decide) (by decide),
   getxattr_blob_contract.2.2 [7] [97] 0 (by decide) (by decide)⟩

/-- Counterexample to C9 as stated: the blob `[0,0,0,0,42]` (count 0 plus
a trailing garbage byte) is not the encoding of any xattr list, yet the
scan returns `NoData`, not `IO` — only malformations the bounds-checked
decodes actually reach are reported as `IO`. -/
theorem getxattr_malformed_cex :
    ¬ WellFormedBlob [0, 0, 0, 0, 42] ∧
    ceph_getxattr_blob [0, 0, 0, 0, 42] [97] 5 = .enodata ∧
    XattrRes.enodata ≠ XattrRes.eio := by
  refine ⟨?_, by decide, by decide⟩
  rintro ⟨xs, hc, hl, h⟩
  rcases xs with _ | ⟨e, rest⟩
  · simp [encodeXattrs, encodeXattrBody, toLE32] at h
  · have hlen := congrArg List.length h
    simp [encodeXattrs, encodeXattrBody, encodeXattrEntry, toLE32] at hlen

/-- C10: a name in the virtual-xattr table is answered immediately from
the cached directory stats — the returned value is the formatted
length whatever the buffer size (never `Range`), the blob path is never
consulted, and the result is independent of the cached blob and of the
buffer size. -/
theorem getxattr_virtual (ci : CInode) (size size2 : Nat) (blob2 : List Nat) :
    ∀ r ∈ _ceph_vir_xattr_recs,
      ceph_getxattr ci r.1 size = (.retLen (r.2 ci).length, false) ∧
      (ceph_getxattr ci r.1 size).1 ≠ .erange ∧
      ceph_getxattr { ci with i_xattr_data := blob2 } r.1 size2 =
        ceph_getxattr ci r.1 size := by
  intro r hr
  simp only [_ceph_vir_xattr_recs, List.mem_cons, List.not_mem_nil, or_false] at hr
  rcases hr with rfl | rfl | rfl | rfl | rfl | rfl | rfl | rfl <;>
    exact ⟨rfl, fun hcon => XattrRes.noConfusion hcon, rfl⟩

/-- A directory inode with 20 files and 3 subdirs (so the `entries`
virtual xattr formats to the 2-byte string `"23"`). -/
def demoDirInode : CInode := { inode0 with i_files := 20, i_subdirs := 3 }

/-- Witness for C10: `user.ceph.dir.entries` with a 1-byte buffer (smaller
than the 2-byte formatted value) still returns length 2, not `Range`, and
changing the cached blob or the size does not change the result. -/
theorem getxattr_virtual_witness :
    ceph_getxattr demoDirInode "user.ceph.dir.entries" 1 =
      (.retLen (_ceph_vir_xattrcb_entries demoDirInode).length, false) ∧
    (ceph_getxattr demoDirInode "user.ceph.dir.entries" 1).1 ≠ .erange ∧
    ceph_getxattr { demoDirInode with i_xattr_data := [9] } "user.ceph.dir.entries" 0 =
      ceph_getxattr demoDirInode "user.ceph.dir.entries" 1 :=
  getxattr_virtual demoDirInode 1 0 [9]
    ("user.ceph.dir.entries", _ceph_vir_xattrcb_entries) (List.mem_cons_self _ _)

end CephClient
